import Mathlib

/-!
Verification of the alignment-repair scripts and the CRPE engine binding of
the `crystalreports` repository, as a shallow embedding in Lean 4.

The embedding translates:
  * `src/crystalreports/models.py`   — the `ReportObject` record;
  * `src/fix_alignment.py`           — PASS 1 (row grouping + row alignment)
                                       and PASS 1b (box-pair normalization);
  * `src/analyze_alignment.py`       — the analyzer's row grouping;
  * `src/crystalreports/crpe_engine.py` — `rgb_to_colorref`,
                                       `_set_long_at` / `_move_box` / `_move_line`
                                       record manipulation,
                                       `_ensure_section_height`, and
                                       `CrpeJob.save`.

Machine integers of the Python source are modelled as `Int`/`Nat`; byte
buffers (the ctypes record buffers) as `List Nat` of byte values; Python
strings as `List Char`; fallible engine interactions as explicit parameters
and `Option`/sum results.
-/

/-- A report layout object, translated from the dataclass `ReportObject`
in `src/crystalreports/models.py` (only the fields the alignment scripts
use; coordinates are twips, signed integers). -/
structure Obj where
  handle : Int
  object_type : String
  section_code : Int
  left : Int
  top : Int
  right : Int
  bottom : Int
deriving DecidableEq, Repr

/-- A requested `move_object` call: the four bounds passed for one handle
(`rpt.move_object(handle, left, top, right, bottom, ...)`). -/
structure Move where
  handle : Int
  left : Int
  top : Int
  right : Int
  bottom : Int
deriving DecidableEq, Repr

/-- `TOLERANCE = 20` twips, from `src/fix_alignment.py` line 15 and
`src/analyze_alignment.py` line 48. -/
def TOLERANCE : Int := 20

/-- The relation used by `sorted(group, key=lambda o: o.top)`. -/
def topLe (a b : Obj) : Prop := a.top ≤ b.top

instance : DecidableRel topLe := fun a b => inferInstanceAs (Decidable (a.top ≤ b.top))

instance : IsTotal Obj topLe := ⟨fun a b => Int.le_total a.top b.top⟩

instance : IsTrans Obj topLe := ⟨fun _ _ _ h1 h2 => le_trans h1 h2⟩

/-- The relation used by the analyzer's
`sorted(objects, key=lambda o: (o.top, o.left))`. -/
def topLeftLe (a b : Obj) : Prop :=
  a.top < b.top ∨ (a.top = b.top ∧ a.left ≤ b.left)

instance : DecidableRel topLeftLe := fun a b =>
  inferInstanceAs (Decidable (a.top < b.top ∨ (a.top = b.top ∧ a.left ≤ b.left)))

instance : IsTotal Obj topLeftLe := by
  constructor
  intro a b
  rcases lt_trichotomy a.top b.top with h | h | h
  · exact Or.inl (Or.inl h)
  · rcases Int.le_total a.left b.left with h2 | h2
    · exact Or.inl (Or.inr ⟨h, h2⟩)
    · exact Or.inr (Or.inr ⟨h.symm, h2⟩)
  · exact Or.inr (Or.inl h)

instance : IsTrans Obj topLeftLe := by
  constructor
  intro a b c hab hbc
  rcases hab with h1 | ⟨h1, h1l⟩
  · rcases hbc with h2 | ⟨h2, _⟩
    · exact Or.inl (lt_trans h1 h2)
    · exact Or.inl (h2 ▸ h1)
  · rcases hbc with h2 | ⟨h2, h2l⟩
    · exact Or.inl (h1 ▸ h2)
    · exact Or.inr ⟨h1.trans h2, le_trans h1l h2l⟩

/-- `sorted(group, key=lambda o: o.top)` — Python `sorted` is a stable sort,
so any stable sort by the same key computes the same list; we use
insertion sort, which is stable. -/
def sortByTop (objs : List Obj) : List Obj := List.insertionSort topLe objs

/-- The analyzer's `sorted(objects, key=lambda o: (o.top, o.left))`. -/
def sortByTopLeft (objs : List Obj) : List Obj := List.insertionSort topLeftLe objs

/-- The inner scan of the row-grouping loop
(`src/fix_alignment.py` lines 62-67 / `src/analyze_alignment.py` lines 56-61):
walk all sorted objects, skip the ones whose identity is already in `used`,
and collect every object whose `top` is within `TOLERANCE` of the seed's
`top`, adding it to `used`.  Returns the collected tail of the row (in scan
order) together with the final `used` set. -/
def innerScan (seed : Obj) : List Obj → List Int → List Obj × List Int
  | [], used => ([], used)
  | o :: rest, used =>
    if o.handle ∈ used then innerScan seed rest used
    else if |o.top - seed.top| ≤ TOLERANCE then
      let p := innerScan seed rest (o.handle :: used)
      (o :: p.1, p.2)
    else innerScan seed rest used

/-- The outer row-grouping loop (`src/fix_alignment.py` lines 57-69 /
`src/analyze_alignment.py` lines 51-63): each not-yet-used object seeds a
row `[obj]`, the inner scan fills it, and rows with more than one member
are kept. -/
def outerLoop : List Obj → List Obj → List Int → List (List Obj)
  | [], _, _ => []
  | o :: pending, all, used =>
    if o.handle ∈ used then outerLoop pending all used
    else
      let p := innerScan o all (o.handle :: used)
      if 0 < p.1.length then (o :: p.1) :: outerLoop pending all p.2
      else outerLoop pending all p.2

/-- The fixer's row grouper (`src/fix_alignment.py` lines 53-69): sort the
group by `top`, then run the greedy single-pass grouping.  Object identity
is the engine handle (`obj.handle`). -/
def groupRowsFix (objs : List Obj) : List (List Obj) :=
  let s := sortByTop objs
  outerLoop s s []

/-- The analyzer's row grouper (`src/analyze_alignment.py` lines 37, 51-63):
identical loop, but the list is sorted by `(top, left)`.  The analyzer keys
`used` by `id(obj)`, which is unique per object; the handle plays that role
here. -/
def groupRowsAna (objs : List Obj) : List (List Obj) :=
  let s := sortByTopLeft objs
  outerLoop s s []

/-- One step of building the insertion-ordered key list of
`collections.Counter(tops)`: a value is appended the first time it is
seen. -/
def insertKey (acc : List Int) (t : Int) : List Int :=
  if t ∈ acc then acc else acc ++ [t]

/-- The keys of `Counter(tops)` in insertion order (Python dicts preserve
insertion order, so the keys appear in order of first occurrence).
`keysOf tops` also has the length of `set(tops)`, which the source uses in
the guard `len(set(tops)) <= 1`. -/
def keysOf (tops : List Int) : List Int := tops.foldl insertKey []

/-- `max(items, key=...)` over the counter items (which is what
`Counter.most_common(1)` computes): scan in insertion order and replace the
best only on a strictly greater count, so the first key attaining the
maximal count wins. -/
def pickBest (tops : List Int) (b : Int) (ks : List Int) : Int :=
  ks.foldl (fun best k => if tops.count best < tops.count k then k else best) b

/-- `top_counts.most_common(1)[0][0]` — the first key of maximal count in
insertion order.  (On an empty row Python would raise `IndexError`; the
grouper only emits rows of length ≥ 2, so the default `0` is never
reached under the theorems below.) -/
def pickMode (tops : List Int) : Int :=
  match keysOf tops with
  | [] => 0
  | k :: ks => pickBest tops k ks

/-- Python's `round` (banker's rounding, round half to even) applied to the
exact quotient `s / n` with `n > 0`: `f = ⌊s / n⌋` and the fractional part
`(s - n * f) / n` decides between `f`, `f + 1`, and (exactly on a half) the
even one of the two.  `round(sum(tops) / len(tops))` divides two ints in
floating point; we model the division exactly, which agrees whenever the
float quotient is exact and is the intended arithmetic otherwise. -/
def roundDivHalfEven (s n : Int) : Int :=
  let f := s.ediv n
  let rem := s - n * f
  if 2 * rem < n then f
  else if n < 2 * rem then f + 1
  else if f % 2 = 0 then f else f + 1

/-- `round(sum(tops) / len(tops))` from `src/fix_alignment.py` line 79. -/
def roundMean (tops : List Int) : Int :=
  roundDivHalfEven tops.sum tops.length

/-- `src/fix_alignment.py` lines 76-79: the target top is the mode
(`most_common(1)[0][0]`); when the maximal frequency is 1 the rounded mean
is used instead. -/
def targetTop (tops : List Int) : Int :=
  let m := pickMode tops
  if tops.count m = 1 then roundMean tops else m

/-- The maximal frequency of any value in `tops`. -/
def maxFreq (tops : List Int) : Nat :=
  (tops.map fun t => tops.count t).foldr max 0

/-- The `move_object` call emitted for one misaligned member
(`src/fix_alignment.py` lines 81-92): `top` becomes the target and `bottom`
is shifted by the same delta, `left`/`right` unchanged. -/
def moveFor (target : Int) (o : Obj) : Move :=
  ⟨o.handle, o.left, target, o.right, o.bottom + (target - o.top)⟩

/-- The per-row alignment step (`src/fix_alignment.py` lines 71-92): rows
whose tops are all equal (`len(set(tops)) <= 1`) are skipped; otherwise
every member whose `top` differs from the target is moved. -/
def alignRow (row : List Obj) : List Move :=
  let tops := row.map (·.top)
  if (keysOf tops).length ≤ 1 then []
  else
    let t := targetTop tops
    (row.filter fun o => o.top ≠ t).map (moveFor t)

/-- `CONTAINER_TYPES = {"Box", "Line"}` (`src/fix_alignment.py` line 17). -/
def isContainer (o : Obj) : Bool := o.object_type = "Box" ∨ o.object_type = "Line"

/-- PASS 1 on one sub-group (container or content objects of one section,
`src/fix_alignment.py` lines 49-92): groups of fewer than 2 objects are
skipped, the rest are row-grouped and aligned. -/
def passGroup (group : List Obj) : List Move :=
  if group.length < 2 then []
  else ((groupRowsFix group).map alignRow).flatten

/-- PASS 1 on one section (`src/fix_alignment.py` lines 46-92): container
objects and content objects are processed as separate groups. -/
def pass1Moves (objs : List Obj) : List Move :=
  passGroup (objs.filter fun o => isContainer o) ++
    passGroup (objs.filter fun o => ¬ isContainer o)

/-- The effect of a granted `rpt.move_object` call on a later re-query of
the same object: the stored bounds become the requested bounds.  Models the
engine state change performed by `CrpeJob.move_object`. -/
def applyMove (m : Move) (o : Obj) : Obj :=
  { o with left := m.left, top := m.top, right := m.right, bottom := m.bottom }

/-- Replay a batch of emitted moves on an object list (each object takes the
bounds of the first move addressed to its handle, if any). -/
def applyMoves (objs : List Obj) (moves : List Move) : List Obj :=
  objs.map fun o =>
    match moves.find? (fun m => m.handle == o.handle) with
    | some m => applyMove m o
    | none => o

/-- `TARGET_LEFT = 129` (`src/fix_alignment.py` line 114). -/
def TARGET_LEFT : Int := 129

/-- `TARGET_RIGHT = 10170` (`src/fix_alignment.py` line 115). -/
def TARGET_RIGHT : Int := 10170

/-- The content-box `move_object` request of PASS 1b
(`src/fix_alignment.py` lines 145-167): if the vertical gap to the kopje
box is nonzero or the left/right edges are off the anchors, the content box
is moved to `(TARGET_LEFT, kopje.bottom, TARGET_RIGHT, kopje.bottom +
height)`; otherwise no call is made. -/
def contentMove (kopje content : Obj) : Option Move :=
  let gap := content.top - kopje.bottom
  if gap ≠ 0 ∨ (content.left ≠ TARGET_LEFT ∨ content.right ≠ TARGET_RIGHT) then
    some ⟨content.handle, TARGET_LEFT, kopje.bottom, TARGET_RIGHT,
          kopje.bottom + (content.bottom - content.top)⟩
  else none

/-- The control-flow outcome of PASS 1b on one section, up to and including
the content-box move request (`src/fix_alignment.py` lines 117-167). -/
inductive BoxPairOutcome where
  | tooFew
  | noPattern
  | layeredSkip
  | plan (kopje : Obj) (inner : Option Obj) (content : Obj) (mv : Option Move)
deriving DecidableEq, Repr

/-- PASS 1b box classification and content move for one section
(`src/fix_alignment.py` lines 117-167): the section's `Box` objects are
sorted by `top`; fewer than 2 boxes are skipped; with 3 boxes the taller of
the first two (Python `max`/`min` keep the first on ties) is the kopje and
the other is the inner nested box, the third is the content box; with 2
boxes the first is the kopje and the second the content, skipped as
"layered" when `content.top < kopje.top`; any other count is skipped. -/
def boxPairPlan (objects : List Obj) : BoxPairOutcome :=
  let boxes := sortByTop (objects.filter fun o => o.object_type = "Box")
  match boxes with
  | [] => .tooFew
  | [_] => .tooFew
  | [b1, b2] =>
    if b2.top < b1.top then .layeredSkip
    else .plan b1 none b2 (contentMove b1 b2)
  | [b1, b2, b3] =>
    let kopje := if b1.bottom - b1.top < b2.bottom - b2.top then b2 else b1
    let inner := if b2.bottom - b2.top < b1.bottom - b1.top then b2 else b1
    .plan kopje (some inner) b3 (contentMove kopje b3)
  | _ => .noPattern

/-- `struct.unpack_from("<i", bytes(buf), off)` — read a little-endian
signed 32-bit integer from the byte buffer (bytes are values `< 256`). -/
def readI32 (buf : List Nat) (off : Nat) : Int :=
  let u := buf.getD off 0 + 256 * buf.getD (off + 1) 0 +
      65536 * buf.getD (off + 2) 0 + 16777216 * buf.getD (off + 3) 0
  if u < 2147483648 then (u : Int) else (u : Int) - 4294967296

/-- `CrpeJob._set_long_at` (`src/crystalreports/crpe_engine.py` lines
705-710): write the 4 little-endian bytes of the signed 32-bit value into
the buffer at `off .. off+3` (`value.to_bytes(4, "little", signed=True)`
requires `-2^31 ≤ value < 2^31`; on that range it matches the two's
complement bytes of `value % 2^32` used here). -/
def set_long_at (buf : List Nat) (off : Nat) (value : Int) : List Nat :=
  let u := (value % 4294967296).toNat
  ((((buf.set off (u % 256)).set (off + 1) (u / 256 % 256)).set
      (off + 2) (u / 65536 % 256)).set (off + 3) (u / 16777216 % 256))

/-- `CrpeJob._ensure_section_height` (`src/crystalreports/crpe_engine.py`
lines 692-703): non-positive section codes return immediately;
`height = none` models a failed `PEGetSectionHeight`; otherwise the
section height is set to `needed + 20` exactly when `needed` exceeds the
current height.  The result is the argument passed to
`PESetSectionHeight`, or `none` when no call is made. -/
def ensure_section_height (section_code : Int) (height : Option Int)
    (needed : Int) : Option Int :=
  if section_code ≤ 0 then none
  else
    match height with
    | none => none
    | some h => if h < needed then some (needed + 20) else none

/-- `CrpeJob._move_box` (`src/crystalreports/crpe_engine.py` lines
712-752) on the 44-byte `BoxObjectInfo` buffer read back from the engine:
cross-section boxes (offset 12 differs from `section_code + 65536` when the
code is positive) get only `left` (offset 4) and `top` (offset 8)
rewritten; others also get the x-sum (offset 16) and y-sum (offset 20) and
the section-height check.  Returns the buffer passed to
`PESetBoxObjectInfo` together with the `PESetSectionHeight` argument, if
any. -/
def move_box (buf : List Nat) (section_code left top right bottom : Int)
    (height : Option Int) : List Nat × Option Int :=
  if 0 < section_code ∧ readI32 buf 12 ≠ section_code + 65536 then
    (set_long_at (set_long_at buf 4 left) 8 top, none)
  else
    (set_long_at (set_long_at (set_long_at (set_long_at buf 4 left) 8 top)
        16 (left + right)) 20 (top + bottom),
     ensure_section_height section_code height (top + bottom))

/-- `CrpeJob._move_line` (`src/crystalreports/crpe_engine.py` lines
754-789) on the 36-byte `LineObjectInfo` buffer: cross-section lines
(offset 4 differs from `section_code + 65536` when the code is positive)
get only `left` (offset 8) and `top` (offset 12) rewritten; others also get
the x-sum (offset 20) and y-sum (offset 24) and the section-height
check. -/
def move_line (buf : List Nat) (section_code left top right bottom : Int)
    (height : Option Int) : List Nat × Option Int :=
  if 0 < section_code ∧ readI32 buf 4 ≠ section_code + 65536 then
    (set_long_at (set_long_at buf 8 left) 12 top, none)
  else
    (set_long_at (set_long_at (set_long_at (set_long_at buf 8 left) 12 top)
        20 (left + right)) 24 (top + bottom),
     ensure_section_height section_code height (top + bottom))

/-- `rgb_to_colorref` (`src/crystalreports/crpe_engine.py` lines 452-454):
`(b << 16) | (g << 8) | r`. -/
def rgb_to_colorref (r g b : Nat) : Nat := (b <<< 16) ||| (g <<< 8) ||| r

/-- A raised Python exception, as a class name and message (Python strings
modelled as `List Char`). -/
structure PyError where
  cls : List Char
  msg : List Char
deriving DecidableEq

/-- Result of `CrpeJob.save`: either an exception, tagged with whether
`PESavePrintJob` had been invoked before it was raised, or success. -/
inductive SaveResult where
  | raised (nativeCalled : Bool) (e : PyError)
  | ok
deriving DecidableEq

/-- The message of the error raised for a missing or self-overwriting
destination (`src/crystalreports/crpe_engine.py` lines 978-981 and
984-987). -/
def overwriteMsg : List Char :=
  "PESavePrintJob cannot overwrite the open file. Provide a different output_path.".data

/-- The error raised before any native save call when the destination is
absent or resolves to the open file. -/
def invalidDestinationError : PyError := ⟨"CrystalReportsError".data, overwriteMsg⟩

/-- `_check` (`src/crystalreports/crpe_engine.py` lines 425-431): a failing
engine call raises `CrystalReportsError` with message
`f"{action} failed: {msg}"` (or `msg` alone when no action is given). -/
def check_failure (action msg : List Char) : PyError :=
  ⟨"CrystalReportsError".data,
   if action = [] then msg else action ++ " failed: ".data ++ msg⟩

/-- `CrpeJob.save` (`src/crystalreports/crpe_engine.py` lines 967-994).
`selfPath` is the resolved path stored at open; `resolve` models
`str(Path(p).resolve())`; `hasSaveEntry` models the presence of the
`PESavePrintJob` symbol (its absence raises `AttributeError`, converted to
`CrystalReportsError`, before any native call); `native` models the engine
call's success and `errText` the engine's error text on failure. -/
def crpe_save (selfPath : List Char) (output_path : Option (List Char))
    (resolve : List Char → List Char) (hasSaveEntry : Bool)
    (native : List Char → Bool) (errText : List Char) : SaveResult :=
  match output_path with
  | none => .raised false invalidDestinationError
  | some p =>
    let dest := resolve p
    if dest = selfPath then .raised false invalidDestinationError
    else if hasSaveEntry then
      if native dest then .ok
      else .raised true (check_failure "SavePrintJob".data errText)
    else
      .raised false
        ⟨"CrystalReportsError".data,
         "PESavePrintJob not available in this crpe32.dll build".data⟩

/-! ### Lemmas about the Counter model -/

theorem foldl_insertKey_mem :
    ∀ (l acc : List Int) (x : Int),
      x ∈ l.foldl insertKey acc ↔ x ∈ acc ∨ x ∈ l := by
  intro l
  induction l with
  | nil => simp
  | cons t rest ih =>
    intro acc x
    rw [List.foldl_cons, ih]
    unfold insertKey
    by_cases h : t ∈ acc
    · rw [if_pos h]
      constructor
      · rintro (hx | hx)
        · exact Or.inl hx
        · exact Or.inr (List.mem_cons_of_mem _ hx)
      · rintro (hx | hx)
        · exact Or.inl hx
        · rcases List.mem_cons.mp hx with rfl | hx'
          · exact Or.inl h
          · exact Or.inr hx'
    · rw [if_neg h]
      constructor
      · rintro (hx | hx)
        · rcases List.mem_append.mp hx with hx' | hx'
          · exact Or.inl hx'
          · simp only [List.mem_singleton] at hx'
            exact Or.inr (hx' ▸ List.mem_cons_self _ _)
        · exact Or.inr (List.mem_cons_of_mem _ hx)
      · rintro (hx | hx)
        · exact Or.inl (List.mem_append.mpr (Or.inl hx))
        · rcases List.mem_cons.mp hx with rfl | hx'
          · exact Or.inl (List.mem_append.mpr (Or.inr (List.mem_singleton.mpr rfl)))
          · exact Or.inr hx'

theorem mem_keysOf (l : List Int) (x : Int) : x ∈ keysOf l ↔ x ∈ l := by
  rw [keysOf, foldl_insertKey_mem]; simp

theorem foldl_insertKey_pairwise :
    ∀ (l acc : List Int), l.Pairwise (· ≤ ·) → acc.Pairwise (· < ·) →
      (∀ a ∈ acc, ∀ t ∈ l, a ≤ t) →
      (l.foldl insertKey acc).Pairwise (· < ·) := by
  intro l
  induction l with
  | nil => intro acc _ hacc _; exact hacc
  | cons t rest ih =>
    intro acc hl hacc hbound
    rw [List.foldl_cons]
    have hl' := List.pairwise_cons.mp hl
    unfold insertKey
    by_cases h : t ∈ acc
    · rw [if_pos h]
      exact ih acc hl'.2 hacc fun a ha r hr => hbound a ha r (List.mem_cons_of_mem _ hr)
    · rw [if_neg h]
      refine ih (acc ++ [t]) hl'.2 ?_ ?_
      · rw [List.pairwise_append]
        refine ⟨hacc, List.pairwise_singleton _ _, ?_⟩
        intro a ha b hb
        simp only [List.mem_singleton] at hb
        rw [hb]
        exact lt_of_le_of_ne (hbound a ha t (List.mem_cons_self _ _))
          (fun hc => h (hc ▸ ha))
      · intro a ha r hr
        rcases List.mem_append.mp ha with ha' | ha'
        · exact hbound a ha' r (List.mem_cons_of_mem _ hr)
        · simp only [List.mem_singleton] at ha'
          exact ha' ▸ hl'.1 r hr

theorem keysOf_pairwise (l : List Int) (hl : l.Pairwise (· ≤ ·)) :
    (keysOf l).Pairwise (· < ·) :=
  foldl_insertKey_pairwise l [] hl (List.Pairwise.nil) (by simp)

theorem foldl_insertKey_const {t : Int} :
    ∀ (l : List Int), (∀ x ∈ l, x = t) → l.foldl insertKey [t] = [t] := by
  intro l
  induction l with
  | nil => intro _; rfl
  | cons a rest ih =>
    intro h
    rw [List.foldl_cons]
    have ha : a = t := h a (List.mem_cons_self _ _)
    rw [ha]
    have : insertKey [t] t = [t] := by simp [insertKey]
    rw [this]
    exact ih fun x hx => h x (List.mem_cons_of_mem _ hx)

theorem keysOf_len_le_one {t : Int} (l : List Int) (h : ∀ x ∈ l, x = t) :
    (keysOf l).length ≤ 1 := by
  cases l with
  | nil => simp [keysOf]
  | cons a rest =>
    have ha : a = t := h a (List.mem_cons_self _ _)
    rw [keysOf, List.foldl_cons]
    have h1 : insertKey [] a = [t] := by simp [insertKey, ha]
    rw [h1, foldl_insertKey_const rest fun x hx => h x (List.mem_cons_of_mem _ hx)]
    simp

theorem pickBest_spec (tops : List Int) :
    ∀ (ks : List Int) (b : Int), (b :: ks).Pairwise (· < ·) →
      (pickBest tops b ks = b ∨ pickBest tops b ks ∈ ks) ∧
      tops.count b ≤ tops.count (pickBest tops b ks) ∧
      (∀ k ∈ ks, tops.count k ≤ tops.count (pickBest tops b ks)) ∧
      (∀ j, (j = b ∨ j ∈ ks) → tops.count j = tops.count (pickBest tops b ks) →
        pickBest tops b ks ≤ j) := by
  intro ks
  induction ks with
  | nil =>
    intro b _
    refine ⟨Or.inl rfl, le_refl _, by simp, ?_⟩
    rintro j (rfl | hj)
    · intro _; exact le_refl _
    · simp at hj
  | cons k ks ih =>
    intro b hpw
    have hpw' := List.pairwise_cons.mp hpw
    have hbk : b < k := hpw'.1 k (List.mem_cons_self _ _)
    have hstep : pickBest tops b (k :: ks) =
        pickBest tops (if tops.count b < tops.count k then k else b) ks := by
      simp [pickBest, List.foldl_cons]
    by_cases hc : tops.count b < tops.count k
    · rw [hstep, if_pos hc]
      obtain ⟨hmem, hb, hall, hmin⟩ := ih k hpw'.2
      refine ⟨?_, ?_, ?_, ?_⟩
      · rcases hmem with h | h
        · refine Or.inr ?_
          rw [h]
          exact List.mem_cons_self _ _
        · exact Or.inr (List.mem_cons_of_mem _ h)
      · exact le_trans (le_of_lt hc) hb
      · intro j hj
        rcases List.mem_cons.mp hj with rfl | hj'
        · exact hb
        · exact hall j hj'
      · rintro j (rfl | hj) hcnt
        · exact absurd hcnt (by omega)
        · rcases List.mem_cons.mp hj with rfl | hj'
          · exact hmin j (Or.inl rfl) hcnt
          · exact hmin j (Or.inr hj') hcnt
    · rw [hstep, if_neg hc]
      have hpwb : (b :: ks).Pairwise (· < ·) := by
        refine List.pairwise_cons.mpr ⟨?_, (List.pairwise_cons.mp hpw'.2).2⟩
        intro x hx
        exact hpw'.1 x (List.mem_cons_of_mem _ hx)
      obtain ⟨hmem, hb, hall, hmin⟩ := ih b hpwb
      refine ⟨?_, hb, ?_, ?_⟩
      · rcases hmem with h | h
        · exact Or.inl h
        · exact Or.inr (List.mem_cons_of_mem _ h)
      · intro j hj
        rcases List.mem_cons.mp hj with rfl | hj'
        · omega
        · exact hall j hj'
      · rintro j (rfl | hj) hcnt
        · exact hmin j (Or.inl rfl) hcnt
        · rcases List.mem_cons.mp hj with rfl | hj'
          · have hrb : pickBest tops b ks ≤ b := by
              refine hmin b (Or.inl rfl) ?_
              omega
            omega
          · exact hmin j (Or.inr hj') hcnt

theorem mem_le_foldr_max : ∀ (l : List Nat) (x : Nat), x ∈ l → x ≤ l.foldr max 0 := by
  intro l
  induction l with
  | nil => simp
  | cons a rest ih =>
    intro x hx
    rcases List.mem_cons.mp hx with rfl | hx'
    · exact le_max_left _ _
    · exact le_trans (ih x hx') (le_max_right _ _)

theorem foldr_max_le (n : Nat) : ∀ (l : List Nat), (∀ x ∈ l, x ≤ n) → l.foldr max 0 ≤ n := by
  intro l
  induction l with
  | nil => intro _; exact Nat.zero_le _
  | cons a rest ih =>
    intro h
    rw [List.foldr_cons]
    exact max_le (h a (List.mem_cons_self _ _))
      (ih fun x hx => h x (List.mem_cons_of_mem _ hx))

/-- The value computed by `most_common(1)[0][0]` on a sorted, nonempty list:
it occurs in the list, its frequency is the maximal frequency, and it is
the least value among those of maximal frequency. -/
theorem pickMode_spec (tops : List Int) (hne : tops ≠ [])
    (hs : tops.Pairwise (· ≤ ·)) :
    pickMode tops ∈ tops ∧ tops.count (pickMode tops) = maxFreq tops ∧
      (∀ v ∈ tops, tops.count v = maxFreq tops → pickMode tops ≤ v) := by
  have hkeysne : keysOf tops ≠ [] := by
    cases tops with
    | nil => exact absurd rfl hne
    | cons a rest =>
      intro hk
      have ha : a ∈ keysOf (a :: rest) :=
        (mem_keysOf (a :: rest) a).mpr (List.mem_cons_self _ _)
      rw [hk] at ha
      simp at ha
  obtain ⟨k, ks, hk⟩ := List.exists_cons_of_ne_nil hkeysne
  have hpick : pickMode tops = pickBest tops k ks := by
    rw [pickMode, hk]
  have hpw : (k :: ks).Pairwise (· < ·) := by
    rw [← hk]; exact keysOf_pairwise tops hs
  obtain ⟨hmem, hb, hall, hmin⟩ := pickBest_spec tops ks k hpw
  have hmemtops : pickMode tops ∈ tops := by
    refine (mem_keysOf tops _).mp ?_
    rw [hk, hpick]
    rcases hmem with h | h
    · rw [h]; exact List.mem_cons_self _ _
    · exact List.mem_cons_of_mem _ h
  have hcount_le : ∀ t ∈ tops, tops.count t ≤ tops.count (pickMode tops) := by
    intro t ht
    have htk : t ∈ k :: ks := by
      rw [← hk]; exact (mem_keysOf tops t).mpr ht
    rw [hpick]
    rcases List.mem_cons.mp htk with rfl | h
    · exact hb
    · exact hall t h
  have hmax : tops.count (pickMode tops) = maxFreq tops := by
    refine le_antisymm ?_ ?_
    · exact mem_le_foldr_max _ _ (List.mem_map.mpr ⟨pickMode tops, hmemtops, rfl⟩)
    · refine foldr_max_le _ _ ?_
      intro x hx
      obtain ⟨t, ht, rfl⟩ := List.mem_map.mp hx
      exact hcount_le t ht
  refine ⟨hmemtops, hmax, ?_⟩
  intro v hv hvcnt
  have hvk : v = k ∨ v ∈ ks := by
    refine List.mem_cons.mp ?_
    rw [← hk]
    exact (mem_keysOf tops v).mpr hv
  rw [hpick]
  refine hmin v hvk ?_
  rw [hvcnt, ← hpick, hmax]

/-! ### Lemmas about the row aligner -/

theorem alignRow_uniform (row : List Obj)
    (h : (keysOf (row.map (·.top))).length ≤ 1) : alignRow row = [] := by
  simp only [alignRow]
  rw [if_pos h]

theorem alignRow_nonuniform (row : List Obj)
    (h : ¬ (keysOf (row.map (·.top))).length ≤ 1) :
    alignRow row =
      (row.filter fun o => o.top ≠ targetTop (row.map (·.top))).map
        (moveFor (targetTop (row.map (·.top)))) := by
  simp only [alignRow]
  rw [if_neg h]

theorem applyMoves_alignRow_top (row : List Obj)
    (hnu : ¬ (keysOf (row.map (·.top))).length ≤ 1) :
    ∀ o' ∈ applyMoves row (alignRow row),
      o'.top = targetTop (row.map (·.top)) := by
  intro o' ho'
  obtain ⟨o, ho, rfl⟩ := List.mem_map.mp ho'
  cases hf : (alignRow row).find? (fun m => m.handle == o.handle) with
  | some m =>
    have hm : m ∈ alignRow row := List.mem_of_find?_eq_some hf
    rw [alignRow_nonuniform row hnu] at hm
    obtain ⟨o2, _, rfl⟩ := List.mem_map.mp hm
    simp only [hf, applyMove, moveFor]
  | none =>
    simp only [hf]
    by_contra hne
    have hmem : moveFor (targetTop (row.map (·.top))) o ∈ alignRow row := by
      rw [alignRow_nonuniform row hnu]
      refine List.mem_map.mpr ⟨o, ?_, rfl⟩
      exact List.mem_filter.mpr ⟨ho, by simpa using hne⟩
    have := (List.find?_eq_none.mp hf) _ hmem
    simp [moveFor] at this

/-- The per-row align step of PASS 1 is idempotent: aligning the
coordinates produced by a run of the align step emits no moves. -/
theorem alignRow_applyMoves (row : List Obj) :
    alignRow (applyMoves row (alignRow row)) = [] := by
  by_cases hg : (keysOf (row.map (·.top))).length ≤ 1
  · rw [alignRow_uniform row hg]
    have happ : applyMoves row [] = row := by
      simp [applyMoves, List.find?]
    rw [happ]
    exact alignRow_uniform row hg
  · apply alignRow_uniform
    refine keysOf_len_le_one (t := targetTop (row.map (·.top))) _ ?_
    intro x hx
    obtain ⟨o', ho', rfl⟩ := List.mem_map.mp hx
    exact applyMoves_alignRow_top row hg o' ho'

/-! ### Lemmas about the record buffers -/

theorem set_long_at_getD_outside (buf : List Nat) (off : Nat) (v : Int)
    (i : Nat) (h : i < off ∨ off + 4 ≤ i) :
    (set_long_at buf off v).getD i 0 = buf.getD i 0 := by
  simp only [set_long_at, List.getD_eq_getElem?_getD]
  rw [List.getElem?_set_ne (by omega), List.getElem?_set_ne (by omega),
    List.getElem?_set_ne (by omega), List.getElem?_set_ne (by omega)]

/-! ### Lemmas about save errors -/

theorem invalidDestinationError_ne_engine_failure (t : List Char) :
    invalidDestinationError ≠ check_failure "SavePrintJob".data t := by
  intro h
  have h2 := congrArg (fun e => e.msg) h
  simp only [invalidDestinationError, check_failure] at h2
  rw [if_neg (by decide)] at h2
  have h3 := congrArg List.head? h2
  rw [List.head?_append, List.head?_append] at h3
  have hP : overwriteMsg.head? = some 'P' := rfl
  have hS : ("SavePrintJob".data).head? = some 'S' := rfl
  rw [hP, hS] at h3
  simp at h3

/-! ### Bit arithmetic for rgb_to_colorref -/

theorem rgb_to_colorref_arith (r g b : Nat) (hr : r < 256) (hg : g < 256) :
    rgb_to_colorref r g b = b * 65536 + g * 256 + r := by
  have h256 : (2 : ℕ) ^ 8 = 256 := by norm_num
  have h65536 : (2 : ℕ) ^ 16 = 65536 := by norm_num
  have h1 : (b <<< 16) ||| (g <<< 8) = 2 ^ 16 * b + 2 ^ 8 * g := by
    rw [Nat.shiftLeft_eq, Nat.shiftLeft_eq, Nat.mul_comm b, Nat.mul_comm g]
    refine (Nat.mul_add_lt_is_or ?_ b).symm
    rw [h256, h65536]; omega
  have h2 : 2 ^ 16 * b + 2 ^ 8 * g = 2 ^ 8 * (2 ^ 8 * b + g) := by
    rw [h256, h65536]; ring
  have h3 : (2 ^ 8 * (2 ^ 8 * b + g)) ||| r = 2 ^ 8 * (2 ^ 8 * b + g) + r := by
    refine (Nat.mul_add_lt_is_or ?_ _).symm
    rw [h256]; omega
  calc rgb_to_colorref r g b
      = ((b <<< 16) ||| (g <<< 8)) ||| r := rfl
    _ = (2 ^ 8 * (2 ^ 8 * b + g)) ||| r := by rw [h1, h2]
    _ = 2 ^ 8 * (2 ^ 8 * b + g) + r := h3
    _ = b * 65536 + g * 256 + r := by rw [h256]; ring

/-! ### Lemmas about the row grouper -/

theorem innerScan_props (seed : Obj) :
    ∀ (l : List Obj) (u : List Int), ∀ x ∈ (innerScan seed l u).1,
      x ∈ l ∧ x.handle ∉ u ∧ |x.top - seed.top| ≤ TOLERANCE := by
  intro l
  induction l with
  | nil => intro u x hx; simp [innerScan] at hx
  | cons o rest ih =>
    intro u x hx
    rw [innerScan] at hx
    by_cases hmem : o.handle ∈ u
    · rw [if_pos hmem] at hx
      obtain ⟨h1, h2, h3⟩ := ih u x hx
      exact ⟨List.mem_cons_of_mem _ h1, h2, h3⟩
    · rw [if_neg hmem] at hx
      by_cases htol : |o.top - seed.top| ≤ TOLERANCE
      · rw [if_pos htol] at hx
        rcases List.mem_cons.mp hx with rfl | hx'
        · exact ⟨List.mem_cons_self _ _, hmem, htol⟩
        · obtain ⟨h1, h2, h3⟩ := ih (o.handle :: u) x hx'
          exact ⟨List.mem_cons_of_mem _ h1,
            fun hc => h2 (List.mem_cons_of_mem _ hc), h3⟩
      · rw [if_neg htol] at hx
        obtain ⟨h1, h2, h3⟩ := ih u x hx
        exact ⟨List.mem_cons_of_mem _ h1, h2, h3⟩

theorem innerScan_sublist (seed : Obj) :
    ∀ (l : List Obj) (u : List Int), (innerScan seed l u).1.Sublist l := by
  intro l
  induction l with
  | nil => intro u; simp [innerScan]
  | cons o rest ih =>
    intro u
    rw [innerScan]
    by_cases hmem : o.handle ∈ u
    · rw [if_pos hmem]; exact (ih u).cons _
    · rw [if_neg hmem]
      by_cases htol : |o.top - seed.top| ≤ TOLERANCE
      · rw [if_pos htol]; exact (ih (o.handle :: u)).cons₂ _
      · rw [if_neg htol]; exact (ih u).cons _

theorem innerScan_used_mono (seed : Obj) :
    ∀ (l : List Obj) (u : List Int), ∀ h ∈ u, h ∈ (innerScan seed l u).2 := by
  intro l
  induction l with
  | nil => intro u h hh; simpa [innerScan] using hh
  | cons o rest ih =>
    intro u h hh
    rw [innerScan]
    by_cases hmem : o.handle ∈ u
    · rw [if_pos hmem]; exact ih u h hh
    · rw [if_neg hmem]
      by_cases htol : |o.top - seed.top| ≤ TOLERANCE
      · rw [if_pos htol]
        exact ih (o.handle :: u) h (List.mem_cons_of_mem _ hh)
      · rw [if_neg htol]; exact ih u h hh

theorem outerLoop_rows_spec (all : List Obj) (hs : all.Pairwise topLe) :
    ∀ (pending : List Obj) (used : List Int) (pre : List Obj),
      all = pre ++ pending → (∀ x ∈ pre, x.handle ∈ used) →
      ∀ row ∈ outerLoop pending all used,
        ∃ seed r, row = seed :: r ∧ r ≠ [] ∧
          (∀ x ∈ row, |x.top - seed.top| ≤ TOLERANCE ∧ seed.top ≤ x.top) ∧
          row.Pairwise topLe := by
  intro pending
  induction pending with
  | nil => intro used pre _ _ row hrow; simp [outerLoop] at hrow
  | cons o rest ih =>
    intro used pre hall hpre row hrow
    rw [outerLoop] at hrow
    by_cases hmem : o.handle ∈ used
    · rw [if_pos hmem] at hrow
      refine ih used (pre ++ [o]) (by simp [hall]) ?_ row hrow
      intro x hx
      rcases List.mem_append.mp hx with hx' | hx'
      · exact hpre x hx'
      · simp only [List.mem_singleton] at hx'; exact hx' ▸ hmem
    · rw [if_neg hmem] at hrow
      have hseedmin : ∀ x ∈ (innerScan o all (o.handle :: used)).1,
          |x.top - o.top| ≤ TOLERANCE ∧ o.top ≤ x.top := by
        intro x hx
        obtain ⟨hx_all, hx_nu, hx_tol⟩ := innerScan_props o all (o.handle :: used) x hx
        refine ⟨hx_tol, ?_⟩
        have hx_ne_o : x.handle ≠ o.handle := fun hc => hx_nu (hc ▸ List.mem_cons_self _ _)
        have hx_nu' : x.handle ∉ used := fun hc => hx_nu (List.mem_cons_of_mem _ hc)
        rw [hall] at hx_all
        rcases List.mem_append.mp hx_all with hx' | hx'
        · exact absurd (hpre x hx') hx_nu'
        · rcases List.mem_cons.mp hx' with rfl | hx''
          · exact le_refl _
          · have hp := (List.pairwise_append.mp (hall ▸ hs)).2.1
            exact (List.pairwise_cons.mp hp).1 x hx''
      have hrec : ∀ row ∈ outerLoop rest all (innerScan o all (o.handle :: used)).2,
          ∃ seed r, row = seed :: r ∧ r ≠ [] ∧
            (∀ x ∈ row, |x.top - seed.top| ≤ TOLERANCE ∧ seed.top ≤ x.top) ∧
            row.Pairwise topLe := by
        refine ih _ (pre ++ [o]) (by simp [hall]) ?_
        intro x hx
        rcases List.mem_append.mp hx with hx' | hx'
        · exact innerScan_used_mono o all (o.handle :: used) _
            (List.mem_cons_of_mem _ (hpre x hx'))
        · simp only [List.mem_singleton] at hx'
          rw [hx']
          exact innerScan_used_mono o all (o.handle :: used) _
            (List.mem_cons_self _ _)
      by_cases hlen : 0 < (innerScan o all (o.handle :: used)).1.length
      · rw [if_pos hlen] at hrow
        rcases List.mem_cons.mp hrow with rfl | hrow'
        · refine ⟨o, (innerScan o all (o.handle :: used)).1, rfl,
            fun hc => by simp [hc] at hlen, ?_, ?_⟩
          · intro x hx
            rcases List.mem_cons.mp hx with rfl | hx'
            · refine ⟨?_, le_refl _⟩
              rw [sub_self, abs_zero]; decide
            · exact hseedmin x hx'
          · refine List.pairwise_cons.mpr ⟨fun x hx => (hseedmin x hx).2, ?_⟩
            exact List.Pairwise.sublist (innerScan_sublist o all (o.handle :: used)) hs
        · exact hrec row hrow'
      · rw [if_neg hlen] at hrow
        exact hrec row hrow

/-- Rows emitted by either grouper: the first member is a seed whose `top`
is minimal in the row, every member's `top` is within `TOLERANCE` of the
seed's, the row has at least 2 members, and it is sorted by `top`. -/
theorem groupRows_spec (objs : List Obj) (row : List Obj)
    (h : row ∈ groupRowsFix objs ∨ row ∈ groupRowsAna objs) :
    ∃ seed r, row = seed :: r ∧ r ≠ [] ∧
      (∀ x ∈ row, |x.top - seed.top| ≤ TOLERANCE ∧ seed.top ≤ x.top) ∧
      row.Pairwise topLe := by
  rcases h with h | h
  · exact outerLoop_rows_spec (sortByTop objs)
      (List.sorted_insertionSort topLe objs) (sortByTop objs) [] []
      rfl (by simp) row h
  · refine outerLoop_rows_spec (sortByTopLeft objs)
      ?_ (sortByTopLeft objs) [] [] rfl (by simp) row h
    have := List.sorted_insertionSort topLeftLe objs
    refine this.imp ?_
    intro a b hab
    rcases hab with h1 | ⟨h1, _⟩
    · exact le_of_lt h1
    · exact le_of_eq h1


/-! ### Concrete inputs used by witnesses and counterexamples -/

/-- A content-type object, as the fixer's content group sees it. -/
def gObj (h t b : Int) : Obj := ⟨h, "Field", 24000, 0, t, 1000, b⟩

/-- Four objects whose tops `0, 20, 40, 60` increase monotonically with
consecutive gaps equal to `TOLERANCE`. -/
def chainObjs : List Obj :=
  [gObj 1 0 100, gObj 2 20 120, gObj 3 40 140, gObj 4 60 160]

/-- Tops `0, 20, 20, 40`: the first run moves only the object at `0`; the
object at `40` is a discarded singleton and is untouched. -/
def c3Objs : List Obj :=
  [gObj 11 0 100, gObj 12 20 120, gObj 13 20 120, gObj 14 40 140]

/-- The spec's example row, tops `100, 100, 105`. -/
def specRowObjs : List Obj :=
  [gObj 31 100 200, gObj 32 100 200, gObj 33 105 205]

/-- A kopje (header) box of a 2-box section. -/
def kopjeBox : Obj := ⟨41, "Box", 18050, 129, 0, 10170, 300⟩

/-- A content box that overlaps the kopje box (`top < kopje.bottom`): the
"layered" configuration of the code's own comment. -/
def contentBox : Obj := ⟨42, "Box", 18050, 129, 100, 10170, 400⟩

/-- A 44-byte box record whose offset-12 word (`7 + 256*7 + 65536*7 +
16777216*7`) differs from any small `section_code + 65536`: a
cross-section box for section code 6000. -/
def crossBoxBuf : List Nat := List.replicate 44 7

/-- A 36-byte line record, cross-section for section code 6000. -/
def crossLineBuf : List Nat := List.replicate 36 7

/-- A 44-byte box record carrying `71536 = 6000 + 65536` little-endian at
offset 12: a non-cross-section box for section code 6000. -/
def nonCrossBoxBuf : List Nat :=
  [0, 0, 0, 0, 0, 0, 0, 0, 0, 0, 0, 0, 112, 23, 1, 0] ++ List.replicate 28 0

/-- A 36-byte line record carrying `71536` little-endian at offset 4: a
non-cross-section line for section code 6000. -/
def nonCrossLineBuf : List Nat :=
  [0, 0, 0, 0, 112, 23, 1, 0] ++ List.replicate 28 0

/-! ### C9 -/

/-- C9: `rgb_to_colorref` packs channels in `0x00BBGGRR` order:
`rgb_to_colorref 255 0 0 = 0x0000FF`, `rgb_to_colorref 0 0 0 = 0`,
`rgb_to_colorref 255 255 255 = 0xFFFFFF`; and for all `r, g, b < 256` the
result equals `b * 2^16 + g * 2^8 + r`, a value below `2^24`. -/
theorem c9_rgb_to_colorref :
    rgb_to_colorref 255 0 0 = 0x0000FF ∧ rgb_to_colorref 0 0 0 = 0 ∧
    rgb_to_colorref 255 255 255 = 0xFFFFFF ∧
    ∀ r g b : Nat, r < 256 → g < 256 → b < 256 →
      rgb_to_colorref r g b = b * 65536 + g * 256 + r ∧
      rgb_to_colorref r g b < 16777216 := by
  refine ⟨by decide, by decide, by decide, ?_⟩
  intro r g b hr hg hb
  have h := rgb_to_colorref_arith r g b hr hg
  exact ⟨h, by omega⟩

/-- Witness for C9 at `r = 10`, `g = 20`, `b = 30`. -/
theorem c9_witness :
    (10 : Nat) < 256 ∧ (20 : Nat) < 256 ∧ (30 : Nat) < 256 ∧
    (rgb_to_colorref 10 20 30 = 30 * 65536 + 20 * 256 + 10 ∧
      rgb_to_colorref 10 20 30 < 16777216) :=
  ⟨by decide, by decide, by decide,
   c9_rgb_to_colorref.2.2.2 10 20 30 (by decide) (by decide) (by decide)⟩

/-! ### C8 -/

/-- C8: `CrpeJob.save` with no output path, or with an output path that
resolves to the open file's path, raises `CrystalReportsError` with the
cannot-overwrite message before `PESavePrintJob` is invoked
(`nativeCalled = false`), and this error value differs from the error
`_check` raises when the engine rejects the save, whatever the engine's
error text. -/
theorem c8_save_invalid_destination (selfPath p errText : List Char)
    (resolve : List Char → List Char) (hasSaveEntry : Bool)
    (native : List Char → Bool) :
    crpe_save selfPath none resolve hasSaveEntry native errText =
      .raised false invalidDestinationError ∧
    (resolve p = selfPath →
      crpe_save selfPath (some p) resolve hasSaveEntry native errText =
        .raised false invalidDestinationError) ∧
    ∀ t : List Char,
      invalidDestinationError ≠ check_failure "SavePrintJob".data t := by
  refine ⟨rfl, ?_, invalidDestinationError_ne_engine_failure⟩
  intro h
  simp [crpe_save, h]

/-- Witness for C8: saving over the open path `r.rpt` (identity resolve). -/
theorem c8_witness :
    (id "r.rpt".data = "r.rpt".data) ∧
    crpe_save "r.rpt".data (some "r.rpt".data) id true (fun _ => true) [] =
      .raised false invalidDestinationError ∧
    invalidDestinationError ≠ check_failure "SavePrintJob".data "boom".data :=
  ⟨rfl,
   (c8_save_invalid_destination "r.rpt".data "r.rpt".data [] id true
      (fun _ => true)).2.1 rfl,
   (c8_save_invalid_destination "r.rpt".data "r.rpt".data [] id true
      (fun _ => true)).2.2 "boom".data⟩

/-! ### C4 -/

/-- C4: for a Box or Line with positive section code detected as
cross-section (the 32-bit word at offset 12 for boxes, 4 for lines,
differs from `section_code + 65536`), `_move_box`/`_move_line` rewrite
only the left/top fields (offsets 4/8 for boxes, 8/12 for lines) before
the engine set call; the x-sum and y-sum fields (bytes 16-23 for boxes,
20-27 for lines) are byte-for-byte unchanged, and no section-height
adjustment is performed. -/
theorem c4_cross_section_move (buf44 buf36 : List Nat)
    (code left top right bottom : Int) (height : Option Int)
    (hcode : 0 < code)
    (hbox : readI32 buf44 12 ≠ code + 65536)
    (hline : readI32 buf36 4 ≠ code + 65536) :
    (move_box buf44 code left top right bottom height =
        (set_long_at (set_long_at buf44 4 left) 8 top, none) ∧
      ∀ i, 16 ≤ i → i < 24 →
        (move_box buf44 code left top right bottom height).1.getD i 0 =
          buf44.getD i 0) ∧
    (move_line buf36 code left top right bottom height =
        (set_long_at (set_long_at buf36 8 left) 12 top, none) ∧
      ∀ i, 20 ≤ i → i < 28 →
        (move_line buf36 code left top right bottom height).1.getD i 0 =
          buf36.getD i 0) := by
  have hbx : move_box buf44 code left top right bottom height =
      (set_long_at (set_long_at buf44 4 left) 8 top, none) := by
    simp only [move_box]
    rw [if_pos ⟨hcode, hbox⟩]
  have hln : move_line buf36 code left top right bottom height =
      (set_long_at (set_long_at buf36 8 left) 12 top, none) := by
    simp only [move_line]
    rw [if_pos ⟨hcode, hline⟩]
  refine ⟨⟨hbx, ?_⟩, ⟨hln, ?_⟩⟩
  · intro i h1 h2
    rw [hbx]
    rw [set_long_at_getD_outside _ 8 _ _ (by omega),
      set_long_at_getD_outside _ 4 _ _ (by omega)]
  · intro i h1 h2
    rw [hln]
    rw [set_long_at_getD_outside _ 12 _ _ (by omega),
      set_long_at_getD_outside _ 8 _ _ (by omega)]

/-- Witness for C4: the all-sevens cross-section buffers, section code
6000. -/
theorem c4_witness :
    (0 : Int) < 6000 ∧ readI32 crossBoxBuf 12 ≠ 6000 + 65536 ∧
    readI32 crossLineBuf 4 ≠ 6000 + 65536 ∧
    move_box crossBoxBuf 6000 1 2 3 4 (some 100) =
      (set_long_at (set_long_at crossBoxBuf 4 1) 8 2, none) :=
  ⟨by decide, by decide, by decide,
   ((c4_cross_section_move crossBoxBuf crossLineBuf 6000 1 2 3 4 (some 100)
      (by decide) (by decide) (by decide)).1).1⟩

/-! ### C5 -/

/-- C5 counterexample: a non-cross-section box is moved to
`top = 100, bottom = 200` in a section of height 250.  The new bottom
(200) does not exceed the section height (250), yet the section height is
changed to `top + bottom + 20 = 320`: the code keys the auto-grow on the
y-extent sum `top + bottom`, not on the new bottom. -/
theorem c5_counterexample :
    readI32 nonCrossBoxBuf 12 = 6000 + 65536 ∧
    (200 : Int) ≤ 250 ∧
    (move_box nonCrossBoxBuf 6000 0 100 0 200 (some 250)).2 = some 320 := by
  decide

/-- C5 (amended): for a non-cross-section Box or Line with positive
section code and a readable section height `h`, `move_object` sets the
section height to `top + bottom + 20` exactly when the y-extent sum
`top + bottom` exceeds `h`, and leaves it unchanged otherwise (also when
the height query fails). -/
theorem c5_section_autogrow (buf44 buf36 : List Nat)
    (code left top right bottom h : Int) (hcode : 0 < code)
    (hbox : readI32 buf44 12 = code + 65536)
    (hline : readI32 buf36 4 = code + 65536) :
    ((move_box buf44 code left top right bottom (some h)).2 =
        some (top + bottom + 20) ↔ h < top + bottom) ∧
    ((move_box buf44 code left top right bottom (some h)).2 = none ↔
        top + bottom ≤ h) ∧
    (move_box buf44 code left top right bottom none).2 = none ∧
    ((move_line buf36 code left top right bottom (some h)).2 =
        some (top + bottom + 20) ↔ h < top + bottom) ∧
    ((move_line buf36 code left top right bottom (some h)).2 = none ↔
        top + bottom ≤ h) ∧
    (move_line buf36 code left top right bottom none).2 = none := by
  have hnotbox : ¬ (0 < code ∧ readI32 buf44 12 ≠ code + 65536) := by
    rintro ⟨_, hne⟩; exact hne hbox
  have hnotline : ¬ (0 < code ∧ readI32 buf36 4 ≠ code + 65536) := by
    rintro ⟨_, hne⟩; exact hne hline
  have hcode' : ¬ code ≤ 0 := by omega
  have keyb : (move_box buf44 code left top right bottom (some h)).2 =
      (if h < top + bottom then some (top + bottom + 20) else none) := by
    simp only [move_box, if_neg hnotbox, ensure_section_height, if_neg hcode']
  have keybn : (move_box buf44 code left top right bottom none).2 = none := by
    simp only [move_box, if_neg hnotbox, ensure_section_height, if_neg hcode']
  have keyl : (move_line buf36 code left top right bottom (some h)).2 =
      (if h < top + bottom then some (top + bottom + 20) else none) := by
    simp only [move_line, if_neg hnotline, ensure_section_height, if_neg hcode']
  have keyln : (move_line buf36 code left top right bottom none).2 = none := by
    simp only [move_line, if_neg hnotline, ensure_section_height, if_neg hcode']
  rw [keyb, keybn, keyl, keyln]
  split_ifs with hg <;> simp [hg] <;> omega

/-- Witness for C5 (amended) at the non-cross buffers, section code 6000,
`top + bottom = 300`, height 250. -/
theorem c5_witness :
    (0 : Int) < 6000 ∧ readI32 nonCrossBoxBuf 12 = 6000 + 65536 ∧
    readI32 nonCrossLineBuf 4 = 6000 + 65536 ∧
    ((move_box nonCrossBoxBuf 6000 0 100 0 200 (some 250)).2 =
        some (100 + 200 + 20) ↔ (250 : Int) < 100 + 200) :=
  ⟨by decide, by decide, by decide,
   (c5_section_autogrow nonCrossBoxBuf nonCrossLineBuf 6000 0 100 0 200 250
      (by decide) (by decide) (by decide)).1⟩

/-! ### C6 -/

/-- C6 (code bug): on a 2-box section in the layered configuration — the
content box starts above the kopje box's bottom (`content.top = 100 <
kopje.bottom = 300`) — PASS 1b does not skip: it emits a forced move of
the content box to `top = 300`.  The guard `content.top < kopje.top`
compares against the kopje's `top`, which is never true for top-sorted
boxes, so the skip branch is dead code, contradicting the code's own
comment ("Skip layered boxes (content starts above kopje bottom)"). -/
theorem c6_layered_boxes_are_moved :
    contentBox.top < kopjeBox.bottom ∧
    ¬ contentBox.top < kopjeBox.top ∧
    boxPairPlan [kopjeBox, contentBox] =
      .plan kopjeBox none contentBox (some ⟨42, 129, 300, 10170, 600⟩) ∧
    boxPairPlan [kopjeBox, contentBox] ≠ .layeredSkip := by
  decide

/-! ### C7 -/

/-- C7: on a section whose `Box` objects sort by `top` to `[b1, b2, b3]`,
PASS 1b classifies the taller of the two smallest-top boxes as the outer
kopje box, the other as the inner nested box, and the remaining
largest-top box as the content box. -/
theorem c7_three_box_classification (objects : List Obj) (b1 b2 b3 : Obj)
    (hsort : sortByTop (objects.filter fun o => o.object_type = "Box") =
      [b1, b2, b3]) :
    b1.top ≤ b2.top ∧ b2.top ≤ b3.top ∧
    (b2.bottom - b2.top < b1.bottom - b1.top →
      boxPairPlan objects = .plan b1 (some b2) b3 (contentMove b1 b3)) ∧
    (b1.bottom - b1.top < b2.bottom - b2.top →
      boxPairPlan objects = .plan b2 (some b1) b3 (contentMove b2 b3)) := by
  have hsorted := List.sorted_insertionSort topLe
    (objects.filter fun o => o.object_type = "Box")
  rw [show List.insertionSort topLe (objects.filter fun o => o.object_type = "Box") =
      sortByTop (objects.filter fun o => o.object_type = "Box") from rfl,
    hsort] at hsorted
  have h12 : topLe b1 b2 := (List.pairwise_cons.mp hsorted).1 b2 (by simp)
  have h23 : topLe b2 b3 :=
    (List.pairwise_cons.mp (List.pairwise_cons.mp hsorted).2).1 b3 (by simp)
  have hplan : boxPairPlan objects =
      .plan (if b1.bottom - b1.top < b2.bottom - b2.top then b2 else b1)
        (some (if b2.bottom - b2.top < b1.bottom - b1.top then b2 else b1))
        b3
        (contentMove
          (if b1.bottom - b1.top < b2.bottom - b2.top then b2 else b1) b3) := by
    simp only [boxPairPlan, hsort]
  refine ⟨h12, h23, ?_, ?_⟩
  · intro hlt
    rw [hplan, if_neg (by omega), if_pos hlt]
  · intro hlt
    rw [hplan, if_pos hlt, if_neg (by omega)]

/-- An outer kopje box used by the C7 witness. -/
def wBox1 : Obj := ⟨51, "Box", 18050, 129, 0, 10170, 300⟩

/-- An inner nested box used by the C7 witness. -/
def wBox2 : Obj := ⟨52, "Box", 18050, 200, 10, 9000, 100⟩

/-- The content box used by the C7 witness. -/
def wBox3 : Obj := ⟨53, "Box", 18050, 129, 350, 10170, 900⟩

/-- Witness for C7: three boxes with tops `0, 10, 350`, the first taller
than the second. -/
theorem c7_witness :
    sortByTop (([wBox1, wBox2, wBox3].filter fun o => o.object_type = "Box")) =
      [wBox1, wBox2, wBox3] ∧
    (wBox2.bottom - wBox2.top < wBox1.bottom - wBox1.top →
      boxPairPlan [wBox1, wBox2, wBox3] =
        .plan wBox1 (some wBox2) wBox3 (contentMove wBox1 wBox3)) :=
  ⟨by decide,
   (c7_three_box_classification [wBox1, wBox2, wBox3] wBox1 wBox2 wBox3
      (by decide)).2.2.1⟩

/-! ### C2 -/

/-- C2 counterexample: four objects whose tops `0, 20, 40, 60` increase
monotonically with each consecutive gap equal to `TOLERANCE`.  Under the
claimed rule ("within `TOLERANCE` of at least one already-placed member",
maximal groups, chaining possible) all four would form one chained group
with extreme spread 60.  The code instead emits two groups: the object
with top 40, although within `TOLERANCE` of the already-placed member with
top 20, starts a new group, because membership is tested against the seed
only. -/
theorem c2_counterexample :
    groupRowsFix chainObjs =
      [[gObj 1 0 100, gObj 2 20 120], [gObj 3 40 140, gObj 4 60 160]] ∧
    |(gObj 3 40 140).top - (gObj 2 20 120).top| ≤ TOLERANCE := by
  decide

/-- C2 (amended): the grouper, processing objects in ascending-top order
with greedy single-pass assignment, emits only groups of size ≥ 2 whose
members' tops all lie within `TOLERANCE` of the group's seed; consequently
the extreme members of any emitted group differ by at most `TOLERANCE` —
chained groups whose extremes differ by more than `TOLERANCE` cannot
occur. -/
theorem c2_grouper_greedy (objs row : List Obj)
    (h : row ∈ groupRowsFix objs ∨ row ∈ groupRowsAna objs) :
    1 < row.length ∧ ∀ a ∈ row, ∀ b ∈ row, |a.top - b.top| ≤ TOLERANCE := by
  obtain ⟨seed, r, heq, hr, hprop, _⟩ := groupRows_spec objs row h
  subst heq
  refine ⟨?_, ?_⟩
  · cases r with
    | nil => exact absurd rfl hr
    | cons x xs => simp [List.length_cons]
  · intro a ha b hb
    obtain ⟨ha1, ha2⟩ := hprop a ha
    obtain ⟨hb1, hb2⟩ := hprop b hb
    rw [abs_le] at ha1 hb1 ⊢
    omega

/-- A 2-object group used by the C2 witness. -/
def pairObjs : List Obj := [gObj 5 0 100, gObj 6 10 110]

/-- Witness for C2 (amended) at a concrete 2-object group. -/
theorem c2_witness :
    pairObjs ∈ groupRowsFix pairObjs ∧
    (1 < pairObjs.length ∧
      ∀ a ∈ pairObjs, ∀ b ∈ pairObjs, |a.top - b.top| ≤ TOLERANCE) :=
  ⟨by decide, c2_grouper_greedy pairObjs pairObjs (Or.inl (by decide))⟩

/-! ### C10 -/

/-- C10: every member of an emitted row (fixer or analyzer grouper) has a
top within `TOLERANCE` of the row's first member (the seed, whose top is
minimal in the row), so any two members differ in top by at most
`2 * TOLERANCE`; membership is decided only against the seed. -/
theorem c10_grouper_seed_invariant (objs row : List Obj)
    (h : row ∈ groupRowsFix objs ∨ row ∈ groupRowsAna objs) :
    ∃ seed r, row = seed :: r ∧
      (∀ o ∈ row, |o.top - seed.top| ≤ TOLERANCE ∧ seed.top ≤ o.top) ∧
      ∀ a ∈ row, ∀ b ∈ row, |a.top - b.top| ≤ 2 * TOLERANCE := by
  obtain ⟨seed, r, heq, _, hprop, _⟩ := groupRows_spec objs row h
  refine ⟨seed, r, heq, hprop, ?_⟩
  intro a ha b hb
  obtain ⟨ha1, _⟩ := hprop a ha
  obtain ⟨hb1, _⟩ := hprop b hb
  rw [abs_le] at ha1 hb1 ⊢
  simp only [TOLERANCE] at ha1 hb1 ⊢
  omega

/-- A 2-object group used by the C10 witness. -/
def tiltObjs : List Obj := [gObj 7 0 100, gObj 8 15 115]

/-- Witness for C10 at a concrete 2-object group. -/
theorem c10_witness :
    tiltObjs ∈ groupRowsFix tiltObjs ∧
    (∃ seed r, tiltObjs = seed :: r ∧
      (∀ o ∈ tiltObjs, |o.top - seed.top| ≤ TOLERANCE ∧ seed.top ≤ o.top) ∧
      ∀ a ∈ tiltObjs, ∀ b ∈ tiltObjs, |a.top - b.top| ≤ 2 * TOLERANCE) :=
  ⟨by decide, c10_grouper_seed_invariant tiltObjs tiltObjs (Or.inl (by decide))⟩

/-! ### C3 -/

/-- C3 counterexample: on tops `0, 20, 20, 40` the first full PASS 1 run
moves only the object at top 0 (to the mode 20); the object at top 40 is a
discarded singleton.  Re-running the full pass on the moved coordinates
(`20, 20, 20, 40`) regroups the former singleton with the moved row
(`40 - 20 ≤ TOLERANCE`) and emits one further move — the second run is
not a no-op. -/
theorem c3_counterexample :
    pass1Moves c3Objs = [⟨11, 0, 20, 1000, 120⟩] ∧
    pass1Moves (applyMoves c3Objs (pass1Moves c3Objs)) =
      [⟨14, 0, 20, 1000, 120⟩] := by
  decide

/-- C3 (amended): a row whose tops are all equal (`len(set(tops)) <= 1`)
produces zero moves; and the per-row align step is idempotent — aligning
the coordinates produced by aligning a row emits zero further moves.  A
full second pass over all objects of a section, however, may emit new
moves when regrouping merges a moved row with an object that was a
discarded singleton in the first pass (see the counterexample). -/
theorem c3_align_idempotent :
    (∀ row : List Obj,
      (keysOf (row.map (·.top))).length ≤ 1 → alignRow row = []) ∧
    ∀ row : List Obj, alignRow (applyMoves row (alignRow row)) = [] :=
  ⟨alignRow_uniform, alignRow_applyMoves⟩

/-- A uniform-top row used by the C3 witness. -/
def uniformRow : List Obj := [gObj 21 50 80, gObj 22 50 90]

/-- A non-uniform row used by the C3 witness. -/
def slantedRow : List Obj := [gObj 23 0 10, gObj 24 5 20]

/-- Witness for C3 (amended): a uniform row yields no moves; realigning an
aligned row yields no moves. -/
theorem c3_witness :
    (keysOf (uniformRow.map (·.top))).length ≤ 1 ∧
    alignRow uniformRow = [] ∧
    alignRow (applyMoves slantedRow (alignRow slantedRow)) = [] :=
  ⟨by decide, c3_align_idempotent.1 uniformRow (by decide),
   c3_align_idempotent.2 slantedRow⟩

/-! ### C1 -/

/-- C1: for a row emitted by the fixer's grouper whose tops are not all
equal, the chosen target top is the mode of the row's tops — a value of
the row of maximal frequency, and the numerically smallest such value when
several frequencies tie; when the maximal frequency is 1 (all values
distinct) the target falls back to the rounded arithmetic mean; and the
emitted moves are exactly one per member whose top differs from the
target, setting that member's top to the target and its bottom to
`bottom + (target - top)`, with no move for members already at the
target. -/
theorem c1_row_aligner_target (objs row : List Obj)
    (hrow : row ∈ groupRowsFix objs)
    (hnu : ¬ (keysOf (row.map (·.top))).length ≤ 1) :
    (1 < maxFreq (row.map (·.top)) →
      targetTop (row.map (·.top)) ∈ row.map (·.top) ∧
      (row.map (·.top)).count (targetTop (row.map (·.top))) =
        maxFreq (row.map (·.top)) ∧
      ∀ v ∈ row.map (·.top),
        (row.map (·.top)).count v = maxFreq (row.map (·.top)) →
        targetTop (row.map (·.top)) ≤ v) ∧
    (maxFreq (row.map (·.top)) = 1 →
      targetTop (row.map (·.top)) = roundMean (row.map (·.top))) ∧
    alignRow row =
      (row.filter fun o => o.top ≠ targetTop (row.map (·.top))).map
        (moveFor (targetTop (row.map (·.top)))) := by
  obtain ⟨seed, r, heq, _, _, hpw⟩ := groupRows_spec objs row (Or.inl hrow)
  have hne : row.map (·.top) ≠ [] := by rw [heq]; simp
  have hs : (row.map (·.top)).Pairwise (· ≤ ·) := List.pairwise_map.mpr hpw
  obtain ⟨hmem, hcnt, hmin⟩ := pickMode_spec (row.map (·.top)) hne hs
  refine ⟨?_, ?_, alignRow_nonuniform row hnu⟩
  · intro hmf
    have hc1 : ¬ (row.map (·.top)).count (pickMode (row.map (·.top))) = 1 := by
      rw [hcnt]; omega
    have ht : targetTop (row.map (·.top)) = pickMode (row.map (·.top)) := by
      simp only [targetTop]
      rw [if_neg hc1]
    rw [ht]
    exact ⟨hmem, hcnt, hmin⟩
  · intro hmf
    have hc1 : (row.map (·.top)).count (pickMode (row.map (·.top))) = 1 := by
      rw [hcnt, hmf]
    simp only [targetTop]
    rw [if_pos hc1]

/-- Witness for C1 at the spec's example row (tops `100, 100, 105`). -/
theorem c1_witness :
    specRowObjs ∈ groupRowsFix specRowObjs ∧
    ¬ (keysOf (specRowObjs.map (·.top))).length ≤ 1 ∧
    alignRow specRowObjs =
      (specRowObjs.filter fun o =>
        o.top ≠ targetTop (specRowObjs.map (·.top))).map
        (moveFor (targetTop (specRowObjs.map (·.top)))) :=
  ⟨by decide, by decide,
   (c1_row_aligner_target specRowObjs specRowObjs (by decide) (by decide)).2.2⟩
